import Mathlib

/-!
Verification of the translate-backend service (`src/cmd/translate/main.go`)
against its natural-language specification.

The Go program is shallowly embedded: each function of the source becomes a
pure Lean function, with the external effects it triggers (engine process
invocations, cache writes, notification events) returned explicitly as
traces.  State-carrying loops (the notifier loop) become step functions on
their state.  Go's standard string helpers (`strings.TrimSpace`,
`strings.Split`, `strings.Join`, decimal rendering of counters by
`fmt.Sprint`) are embedded as structurally recursive functions over the
rune list of a string, so that every definition evaluates inside the
kernel; the per-rune Unicode tables `unicode.ToLower` (used by
`strings.ToLower`) and `unicode.IsGraphic` are kept as parameters and
instantiated with their ASCII restrictions in concrete witnesses.
-/

namespace Translate

/-- Go unicode.IsSpace: the Unicode White_Space property, namely
U+0009-U+000D, U+0020, U+0085, U+00A0, U+1680, U+2000-U+200A, U+2028,
U+2029, U+202F, U+205F and U+3000.  `strings.TrimSpace` trims exactly
these runes from both ends. -/
def unicodeIsSpace (c : Char) : Bool :=
  (decide (0x9 ≤ c.toNat) && decide (c.toNat ≤ 0xD)) || c.toNat == 0x20 ||
  c.toNat == 0x85 || c.toNat == 0xA0 || c.toNat == 0x1680 ||
  (decide (0x2000 ≤ c.toNat) && decide (c.toNat ≤ 0x200A)) ||
  c.toNat == 0x2028 || c.toNat == 0x2029 || c.toNat == 0x202F ||
  c.toNat == 0x205F || c.toNat == 0x3000

/-- Go strings.TrimSpace: drop the White_Space runes from both ends. -/
def trimChars (cs : List Char) : List Char :=
  ((cs.dropWhile unicodeIsSpace).reverse.dropWhile unicodeIsSpace).reverse

/-- Normalization applied to the request path parameters in the HTTP handler
(`main.go` lines 45-46): `strings.ToLower(strings.TrimSpace(x))`.
`strings.ToLower` maps the string rune by rune through `unicode.ToLower`;
that per-rune case mapping is kept as the parameter `lower`, instantiated
with its ASCII restriction `Char.toLower` (on which the two agree) in the
concrete witnesses. -/
def normalize (lower : Char → Char) (s : String) : String :=
  String.mk ((trimChars s.data).map lower)

/-- Accumulator pass embedding Go strings.Split on the newline rune. -/
def splitLinesAux : List Char → List Char → List (List Char)
  | [], acc => [acc.reverse]
  | c :: rest, acc =>
    if c = '\n' then acc.reverse :: splitLinesAux rest []
    else splitLinesAux rest (c :: acc)

/-- The lines of a string, as rune lists (`strings.Split(s, "\n")`). -/
def splitLines (cs : List Char) : List (List Char) :=
  splitLinesAux cs []

/-- Go strings.Join with a newline separator. -/
def joinLines : List String → String
  | [] => ""
  | [s] => s
  | s :: rest => s ++ "\n" ++ joinLines rest

/-- Decimal digit. -/
def digitChar (n : Nat) : Char :=
  ['0', '1', '2', '3', '4', '5', '6', '7', '8', '9'].getD n '0'

/-- Decimal digits of `n`, most significant first; `fuel` bounds the
recursion (any `fuel > n` suffices). -/
def natReprAux : Nat → Nat → List Char
  | 0, _ => []
  | fuel + 1, n =>
    if n < 10 then [digitChar n]
    else natReprAux fuel (n / 10) ++ [digitChar (n % 10)]

/-- Decimal rendering of a non-negative counter, as printed by
`fmt.Sprint`. -/
def natRepr (n : Nat) : String :=
  String.mk (natReprAux (n + 1) n)

/-- Result of `fetch` (`main.go` lines 80-92), with its side effects made
explicit: the list of engines actually invoked (in order), the cache writes
performed (`HSet lang word value`), and the notification events sent. -/
structure FetchResult where
  answer : String
  invoked : List String
  writes : List (String × String × String)
  events : List String
  deriving Repr, DecidableEq

/-- The error event built by `onTranslationError` (`main.go` lines 113-116):
`fmt.Sprint("[error] ", originalWord, " (to ", targetLanguage+") ", err)`
where the error is `errors.New("failed to translate in all engines")`. -/
def mkTransErrorEvent (word lang : String) : String :=
  "[error] " ++ word ++ " (to " ++ lang ++ ") " ++ "failed to translate in all engines"

/-- Function `fetch` (`main.go` lines 80-92).  The external translation attempt
(`invokeTrans`, lines 94-111) is abstracted as `invoke word lang engine`,
returning `some ans` on success and `none` on any failure (process launch
failure, non-zero exit, or empty normalized output).  The Go loop iterates
the engine list in order; on the first success it performs one cache write
`HSet(lang, word, ans)` and returns; if every engine fails it emits one
error notification and returns the input word. -/
def fetch (word lang : String) (invoke : String → String → String → Option String) :
    List String → FetchResult
  | [] => ⟨word, [], [], [mkTransErrorEvent word lang]⟩
  | e :: rest =>
    match invoke word lang e with
    | some ans => ⟨ans, [e], [(lang, word, ans)], []⟩
    | none =>
      let r := fetch word lang invoke rest
      ⟨r.answer, e :: r.invoked, r.writes, r.events⟩

/-- Result of one HTTP request through the handler registered in `main`
(`main.go` lines 44-62), with effects made explicit: the cache reads
(`HGet lang word`), the engines invoked, the cache writes and the events. -/
structure HandleResult where
  status : Nat
  body : String
  cacheReads : List (String × String)
  invoked : List String
  writes : List (String × String × String)
  events : List String
  deriving Repr, DecidableEq

/-- The HTTP handler for `GET /translate/:word/to/:lang` (`main.go` lines
44-62).  `cacheGet lang word` abstracts `client.HGet(lang, word)`: it is
`some v` when the store returns value `v` without error, and `none` when the
retrieval errors (which in redis includes the key-absent case); the code
tests `cached.Err() != nil` and falls through to `fetch` exactly in the
`none` case.  `lower` is the per-rune case mapping of `strings.ToLower`
(see `normalize`). -/
def translateHandler (lower : Char → Char) (rawWord rawLang : String)
    (cacheGet : String → String → Option String)
    (invoke : String → String → String → Option String)
    (engines : List String) : HandleResult :=
  let word := normalize lower rawWord
  let lang := normalize lower rawLang
  if word = "" then ⟨200, "", [], [], [], []⟩
  else if lang = "" then ⟨200, "", [], [], [], []⟩
  else
    match cacheGet lang word with
    | some v => ⟨200, v, [(lang, word)], [], [], []⟩
    | none =>
      let r := fetch word lang invoke engines
      ⟨200, r.answer, [(lang, word)], r.invoked, r.writes, r.events⟩

/-! ### Notifier (`notificationLoop`, `main.go` lines 118-158) -/

/-- The capacity of the producer event channel: `main.go` line 64 is
`notifyChannel = make(chan string)`, an unbuffered Go channel. -/
def notifyChannelCapacity : Nat := 0

/-- Go channel-send semantics: a send on a channel with capacity `cap` and
`pending` buffered elements completes immediately iff a receiver is ready,
or the buffer has free space (`pending < cap`); otherwise the sender
blocks. -/
def chanSendBlocks (cap pending : Nat) (receiverReady : Bool) : Bool :=
  !receiverReady && decide (cap ≤ pending)

/-- The `case msg := <-notifyChannel` branch of the notifier loop
(`main.go` lines 132-134): the event is appended to the batch. -/
def notifierRecv (batch : List String) (msg : String) : List String :=
  batch ++ [msg]

/-- The `case <-ticker.C` branch of the notifier loop (`main.go` lines
135-155).  `botAvailable` is whether `tgbotapi.NewBotAPI` succeeded at loop
start (`bot != nil`); `sendOk` is the outcome of `bot.Send` when it is
attempted.  Returns the new batch, and `some text` when a sink send was
attempted with that text (`strings.Join(batch, "\n")`), `none` when no send
was attempted. -/
def notifierTick (botAvailable sendOk : Bool) (batch : List String) :
    List String × Option String :=
  if batch.isEmpty then (batch, none)
  else if botAvailable then
    if sendOk then ([], some (joinLines batch))
    else (batch, some (joinLines batch))
  else ([], none)

/-! ### Cache janitor (`cleanup`, `main.go` lines 160-219) -/

/-- A redis hash: the word → translation fields of one language key. -/
abbrev Fields := List (String × String)

/-- The cache as scanned by the janitor: `client.Keys("*")` yields the
language keys, `client.HGetAll(lang)` the fields of each. -/
abbrev Cache := List (String × Fields)

/-- One removal pass of the janitor (the common shape of
`removeEmptyTranslations` and `removeNonPrintableTranslations`,
`main.go` lines 165-189 and 191-219): for every language key and every
field whose value satisfies `bad`, the field is deleted (`HDel`), a global
counter is incremented and the per-language counter is incremented.
Returns the cleaned cache, the total number of removals, and the
per-language counts (only languages with at least one removal appear, as
in the Go `stats` map). -/
def passRemove (bad : String → Bool) (cache : Cache) :
    Cache × Nat × List (String × Nat) :=
  let cleaned := cache.map (fun lf => (lf.1, lf.2.filter (fun wv => !bad wv.2)))
  let counts := cache.map (fun lf => (lf.1, lf.2.countP (fun wv => bad wv.2)))
  (cleaned, (counts.map (fun lc => lc.2)).sum, counts.filter (fun lc => 0 < lc.2))

/-- The summary notification text of a pass (`main.go` lines 178-187 and
208-217): a header line built by `fmt.Sprint` followed by one
`lang: count removes` line per language, joined with newlines. -/
def passMessage (kind : String) (removed : Nat) (stats : List (String × Nat)) : String :=
  joinLines
    (("[info] removed " ++ natRepr removed ++ " " ++ kind ++ " translations") ::
      stats.map (fun lc => lc.1 ++ ": " ++ natRepr lc.2 ++ " removes"))

/-- Whether a value is removed by the first janitor pass (`main.go` line
171): `value == ""`. -/
def emptyBad (v : String) : Bool := v == ""

/-- Whether a value is removed by the second janitor pass (`main.go` lines
197-204): the Go loop ranges over the runes of the value and deletes the
entry on the first rune with `!unicode.IsGraphic(char)`, i.e. exactly when
some rune is non-graphic.  The classifier `unicode.IsGraphic` is kept as a
parameter `isGraphic`. -/
def nonPrintableBad (isGraphic : Char → Bool) (v : String) : Bool :=
  v.data.any (fun c => !isGraphic c)

/-- Function `removeEmptyTranslations` (`main.go` lines 165-189): the first pass,
emitting one summary event iff it removed anything. -/
def removeEmptyTranslations (cache : Cache) : Cache × List String :=
  let r := passRemove emptyBad cache
  (r.1, if 0 < r.2.1 then [passMessage "trashed (empty)" r.2.1 r.2.2] else [])

/-- Function `removeNonPrintableTranslations` (`main.go` lines 191-219): the second
pass, emitting one summary event iff it removed anything. -/
def removeNonPrintableTranslations (isGraphic : Char → Bool) (cache : Cache) :
    Cache × List String :=
  let r := passRemove (nonPrintableBad isGraphic) cache
  (r.1, if 0 < r.2.1 then [passMessage "non-printable" r.2.1 r.2.2] else [])

/-- Function `cleanup` (`main.go` lines 160-163): the empty pass followed by the
non-printable pass, with the events of both. -/
def cleanup (isGraphic : Char → Bool) (cache : Cache) : Cache × List String :=
  let r1 := removeEmptyTranslations cache
  let r2 := removeNonPrintableTranslations isGraphic r1.1
  (r2.1, r1.2 ++ r2.2)

/-- Go unicode.IsGraphic restricted to the ASCII range, where its value is
unambiguous: space and the visible characters 0x21-0x7E are graphic,
control characters are not.  Used only to instantiate concrete examples
whose strings are ASCII. -/
def isGraphicASCII (c : Char) : Bool :=
  decide (0x20 ≤ c.toNat) && decide (c.toNat ≤ 0x7E)

/-! ### Engine discovery (`getEngines`, `main.go` lines 229-255) -/

/-- A character matched by the `\w` class of Go's RE2 `regexp` package
(ASCII word characters), used by `var textOnly = regexp.MustCompile("\\w+")`
(`main.go` line 229). -/
def isWordChar (c : Char) : Bool := c.isAlphanum || c == '_'

/-- Helper for textOnly.FindString: the leftmost maximal run of word
characters of a line, or `[]` when the line has no word character
(`FindString` returns `""` exactly then, since `\w+` cannot match the
empty string). -/
def findWordAux : List Char → List Char
  | [] => []
  | c :: rest =>
    if isWordChar c then c :: rest.takeWhile isWordChar
    else findWordAux rest

/-- The line parse of the discovery output (`main.go` lines 238-243): split
on newlines, keep the first word token of each line when there is one. -/
def parseEngineLines (out : String) : List String :=
  (splitLines out.data).filterMap
    (fun line =>
      if findWordAux line = [] then none else some (String.mk (findWordAux line)))

/-- The reordering loop of `getEngines` (`main.go` lines 244-253): scan for
the first occurrence of `"google"`; if it is at index 0 stop; otherwise
swap it with the element at index 0 (`engines[0], engines[i] =
engines[i], engines[0]`). -/
def promoteGoogle (engines : List String) : List String :=
  match engines.findIdx? (fun e => e == "google") with
  | none => engines
  | some i =>
    if i = 0 then engines
    else (engines.set 0 (engines.getD i "")).set i (engines.getD 0 "")

/-- Function `getEngines` (`main.go` lines 231-255).  The external command
`<command> -S` is abstracted by its outcome: `none` when
`cmd.CombinedOutput()` errors (then `getEngines` returns the error), and
`some out` with the combined output text on success (then the parsed,
reordered list is returned with a nil error). -/
def getEngines (commandResult : Option String) : Option (List String) :=
  commandResult.map (fun out => promoteGoogle (parseEngineLines out))

/-- The built-in default engine list (`main.go` line 30). -/
def defaultEngines : List String := ["google"]

/-- The discovery goroutine in `main` (`main.go` lines 68-76): on discovery
error the process-wide list is left in place, on success it is replaced by
the discovered list. -/
def updateEngines (old : List String) (discovered : Option (List String)) : List String :=
  match discovered with
  | some l => l
  | none => old

end Translate

namespace Translate

/-! ### Theorems -/

/-- C2 counterexample: the claim says a send to the Notifier never blocks
the producer regardless of the state of the Notifier loop.  But the event
channel is created with capacity 0 (`make(chan string)`, `main.go` line
64), and under Go channel semantics a send on a capacity-0 channel with no
ready receiver blocks. -/
theorem notify_send_blocks_counterexample :
    chanSendBlocks notifyChannelCapacity 0 false = true := by decide

/-- C2 (amended): the event channel is unbuffered (capacity 0), so a send
completes without blocking exactly when the Notifier loop is ready to
receive; whenever the loop is not at its receive point (for instance while
it is inside `bot.Send`), the sender blocks. -/
theorem notify_send_unbuffered (pending : Nat) (receiverReady : Bool) :
    chanSendBlocks notifyChannelCapacity pending receiverReady = !receiverReady := by
  simp [chanSendBlocks, notifyChannelCapacity, Nat.zero_le]

/-- C3: on a cache miss, with engines `pre ++ e :: rest` where every engine
of `pre` fails and `e` succeeds with value `v`, `fetch` invokes exactly the
engines of `pre` followed by `e` (in list order), performs exactly one
cache write `HSet(lang, word, v)`, emits no event, and returns `v`. -/
theorem fetch_fallback_first_success (word lang : String)
    (invoke : String → String → String → Option String)
    (pre rest : List String) (e v : String)
    (hw : word ≠ "") (hl : lang ≠ "")
    (hfail : ∀ f ∈ pre, invoke word lang f = none)
    (hsucc : invoke word lang e = some v) :
    fetch word lang invoke (pre ++ e :: rest) =
      ⟨v, pre ++ [e], [(lang, word, v)], []⟩ := by
  induction pre with
  | nil => simp [fetch, hsucc]
  | cons a t ih =>
    have ha : invoke word lang a = none := hfail a (List.mem_cons_self a t)
    have ht : ∀ f ∈ t, invoke word lang f = none :=
      fun f hf => hfail f (List.mem_cons_of_mem a hf)
    simp [fetch, ha, ih ht]

/-- Witness for C3 at a concrete input: engine `a` fails, `b` succeeds. -/
theorem fetch_fallback_first_success_witness :
    fetch "w" "de" (fun _ _ e => if e = "b" then some "res" else none)
        (["a"] ++ "b" :: ["c"]) =
      ⟨"res", ["a"] ++ ["b"], [("de", "w", "res")], []⟩ :=
  fetch_fallback_first_success "w" "de" _ ["a"] ["c"] "b" "res"
    (by decide) (by decide) (by decide) (by decide)

/-- C4: for any per-rune case mapping, with non-empty normalized word and
language, if the cache store returns a value `v` without error the handler
returns `v` with no engine invocation and no cache write; if the retrieval
errors (including key-absent) the handler falls through to the fallback
`fetch`. -/
theorem resolve_cache_hit_and_miss (lower : Char → Char) (rawWord rawLang : String)
    (cacheGet : String → String → Option String)
    (invoke : String → String → String → Option String) (engines : List String)
    (hw : normalize lower rawWord ≠ "") (hl : normalize lower rawLang ≠ "") :
    (∀ v, cacheGet (normalize lower rawLang) (normalize lower rawWord) = some v →
      translateHandler lower rawWord rawLang cacheGet invoke engines =
        ⟨200, v, [(normalize lower rawLang, normalize lower rawWord)], [], [], []⟩) ∧
    (cacheGet (normalize lower rawLang) (normalize lower rawWord) = none →
      translateHandler lower rawWord rawLang cacheGet invoke engines =
        ⟨200,
          (fetch (normalize lower rawWord) (normalize lower rawLang) invoke engines).answer,
          [(normalize lower rawLang, normalize lower rawWord)],
          (fetch (normalize lower rawWord) (normalize lower rawLang) invoke engines).invoked,
          (fetch (normalize lower rawWord) (normalize lower rawLang) invoke engines).writes,
          (fetch (normalize lower rawWord) (normalize lower rawLang) invoke
            engines).events⟩) := by
  constructor
  · intro v hv
    simp [translateHandler, hw, hl, hv]
  · intro h
    simp [translateHandler, hw, hl, h]

/-- Witness for C4 at a concrete input (case mapping `Char.toLower`, the
ASCII restriction of unicode.ToLower): a cache hit is returned verbatim,
with no engine invocation and no write. -/
theorem resolve_cache_hit_and_miss_witness :
    translateHandler Char.toLower "Word" "DE" (fun _ _ => some "hit")
        (fun _ _ _ => none) ["g"] =
      ⟨200, "hit", [("de", "word")], [], [], []⟩ :=
  (resolve_cache_hit_and_miss Char.toLower "Word" "DE" (fun _ _ => some "hit")
    (fun _ _ _ => none) ["g"] (by decide) (by decide)).1 "hit" rfl

/-- C5: when every engine fails, `fetch` returns the original word (never
the empty string, and by its type never an error), performs no cache
write, and emits exactly one error event whose text names the word and the
target language. -/
theorem fetch_all_engines_fail (word lang : String)
    (invoke : String → String → String → Option String) (engines : List String)
    (hw : word ≠ "")
    (hfail : ∀ e ∈ engines, invoke word lang e = none) :
    fetch word lang invoke engines = ⟨word, engines, [], [mkTransErrorEvent word lang]⟩ ∧
    (fetch word lang invoke engines).answer ≠ "" ∧
    (fetch word lang invoke engines).events =
      ["[error] " ++ word ++ " (to " ++ lang ++ ") " ++
        "failed to translate in all engines"] := by
  have hmain : fetch word lang invoke engines =
      ⟨word, engines, [], [mkTransErrorEvent word lang]⟩ := by
    induction engines with
    | nil => rfl
    | cons a t ih =>
      have ha : invoke word lang a = none := hfail a (List.mem_cons_self a t)
      have ht := ih (fun e he => hfail e (List.mem_cons_of_mem a he))
      simp [fetch, ha, ht]
  refine ⟨hmain, ?_, ?_⟩
  · rw [hmain]; exact hw
  · rw [hmain]; rfl

/-- Witness for C5 at a concrete input: both engines fail. -/
theorem fetch_all_engines_fail_witness :
    fetch "w" "de" (fun _ _ _ => none) ["a", "b"] =
      ⟨"w", ["a", "b"], [], [mkTransErrorEvent "w" "de"]⟩ :=
  (fetch_all_engines_fail "w" "de" (fun _ _ _ => none) ["a", "b"]
    (by decide) (by decide)).1

/-- C6: on a tick of the notifier loop with a non-empty batch: with the
sink never initialized the batch is discarded with no send attempt; with a
successful send the batch is cleared; with a failed send the batch is
retained unchanged, and a later successful tick sends the retained events
plus any appended meanwhile; a tick with an empty batch attempts no
send. -/
theorem notifier_tick_cases (batch more : List String) (sendOk : Bool)
    (h : batch ≠ []) :
    notifierTick false sendOk batch = ([], none) ∧
    notifierTick true true batch = ([], some (joinLines batch)) ∧
    notifierTick true false batch = (batch, some (joinLines batch)) ∧
    (∀ b s, notifierTick b s [] = ([], none)) ∧
    notifierTick true true (more.foldl notifierRecv (notifierTick true false batch).1) =
      ([], some (joinLines (batch ++ more))) := by
  have hne : batch.isEmpty = false := by
    cases batch with
    | nil => exact absurd rfl h
    | cons a t => rfl
  have hfold : ∀ (b ms : List String), ms.foldl notifierRecv b = b ++ ms := by
    intro b ms
    induction ms generalizing b with
    | nil => simp
    | cons m t ih => simp [notifierRecv, ih]
  refine ⟨?_, ?_, ?_, fun b s => rfl, ?_⟩
  · simp [notifierTick, hne]
  · simp [notifierTick, hne]
  · simp [notifierTick, hne]
  · rw [show (notifierTick true false batch).1 = batch by simp [notifierTick, hne]]
    rw [hfold]
    have hne2 : (batch ++ more).isEmpty = false := by
      cases batch with
      | nil => exact absurd rfl h
      | cons a t => rfl
    simp [notifierTick, hne2]

/-- Witness for C6 at a concrete input: a failed send retains the batch
and the attempted text joins the events with newlines. -/
theorem notifier_tick_cases_witness :
    notifierTick true false ["e1", "e2"] = (["e1", "e2"], some "e1\ne2") :=
  (notifier_tick_cases ["e1", "e2"] [] true (by decide)).2.2.1

/-- C7: for any per-rune case mapping, a request whose word or language
parameter normalizes to the empty string yields status 200 with empty
body, no cache access, no engine invocation, no write and no event. -/
theorem handler_empty_input (lower : Char → Char) (rawWord rawLang : String)
    (cacheGet : String → String → Option String)
    (invoke : String → String → String → Option String) (engines : List String)
    (h : normalize lower rawWord = "" ∨ normalize lower rawLang = "") :
    translateHandler lower rawWord rawLang cacheGet invoke engines =
      ⟨200, "", [], [], [], []⟩ := by
  rcases h with h | h
  · simp [translateHandler, h]
  · unfold translateHandler
    by_cases hw : normalize lower rawWord = ""
    · simp [hw]
    · simp [hw, h]

/-- Witness for C7 at a concrete input: a word that is a single form-feed
rune (URL segment `%0C`), which `strings.TrimSpace` trims to empty. -/
theorem handler_empty_input_witness :
    translateHandler Char.toLower "\x0c" "de" (fun _ _ => some "x")
        (fun _ _ _ => none) ["g"] =
      ⟨200, "", [], [], [], []⟩ :=
  handler_empty_input Char.toLower "\x0c" "de" (fun _ _ => some "x")
    (fun _ _ _ => none) ["g"] (Or.inl (by decide))

end Translate

namespace Translate

/-- For a successful `findIdx?` search, the found index is in range and
the element there satisfies the predicate. -/
theorem findIdx?_some_spec (p : String → Bool) :
    ∀ (l : List String) (i : Nat), l.findIdx? p = some i →
      i < l.length ∧ p (l.getD i "") = true := by
  intro l
  induction l with
  | nil => intro i h; simp [List.findIdx?_nil] at h
  | cons a t ih =>
    intro i h
    rw [List.findIdx?_cons] at h
    by_cases hp : p a
    · rw [if_pos hp] at h
      cases h
      exact ⟨Nat.succ_pos _, hp⟩
    · rw [if_neg hp, List.findIdx?_succ] at h
      rcases Option.map_eq_some'.1 h with ⟨j, hj, hij⟩
      obtain ⟨h1, h2⟩ := ih j hj
      subst hij
      exact ⟨Nat.succ_lt_succ h1, by simpa using h2⟩

/-- C1 counterexample: the claim says that when the preferred engine sits
at index `i > 0`, the other elements keep their original relative order.
The code instead swaps positions `0` and `i`: on `["a", "b", "google"]` it
produces `["google", "b", "a"]`, not `["google", "a", "b"]`. -/
theorem getEngines_reorder_counterexample :
    ["a", "b", "google"].findIdx? (fun e => e == "google") = some 2 ∧
    promoteGoogle ["a", "b", "google"] = ["google", "b", "a"] ∧
    promoteGoogle ["a", "b", "google"] ≠
      "google" :: (["a", "b", "google"].erase "google") := by decide

/-- C1 (amended): if the preferred engine `"google"` is absent or already
first, the list is unchanged; if its first occurrence is at index `i > 0`,
the result has `"google"` at index 0, the element previously at index 0 at
index `i`, and every other position unchanged (a single swap, not a
stable move). -/
theorem getEngines_reorder_swap (l : List String) :
    (l.findIdx? (fun e => e == "google") = none → promoteGoogle l = l) ∧
    (l.findIdx? (fun e => e == "google") = some 0 → promoteGoogle l = l) ∧
    (∀ i, l.findIdx? (fun e => e == "google") = some i → 0 < i →
      (promoteGoogle l).length = l.length ∧
      (promoteGoogle l).getD 0 "" = "google" ∧
      (promoteGoogle l).getD i "" = l.getD 0 "" ∧
      ∀ j, j ≠ 0 → j ≠ i → (promoteGoogle l).getD j "" = l.getD j "") := by
  refine ⟨?_, ?_, ?_⟩
  · intro h; simp [promoteGoogle, h]
  · intro h; simp [promoteGoogle, h]
  · intro i h hi
    obtain ⟨hlen, hp⟩ := findIdx?_some_spec _ l i h
    have hi0 : i ≠ 0 := Nat.pos_iff_ne_zero.1 hi
    have hgoogle : l.getD i "" = "google" := by simpa using hp
    have h0lt : 0 < l.length := Nat.lt_of_le_of_lt (Nat.zero_le i) hlen
    have hred : promoteGoogle l =
        (l.set 0 (l.getD i "")).set i (l.getD 0 "") := by
      simp [promoteGoogle, h, hi0]
    refine ⟨?_, ?_, ?_, ?_⟩
    · rw [hred]; simp [List.length_set]
    · rw [hred, List.getD_eq_getElem?_getD,
        List.getElem?_set_ne hi0,
        List.getElem?_set_self h0lt]
      simpa using hgoogle
    · rw [hred, List.getD_eq_getElem?_getD,
        List.getElem?_set_self (by simpa [List.length_set] using hlen)]
      simp
    · intro j hj0 hji
      rw [hred, List.getD_eq_getElem?_getD,
        List.getElem?_set_ne (fun hc => hji hc.symm),
        List.getElem?_set_ne (fun hc => hj0 hc.symm),
        ← List.getD_eq_getElem?_getD]

/-- Witness for C1 (amended) at a concrete input: `"google"` at index 2 is
swapped to the front. -/
theorem getEngines_reorder_swap_witness :
    ["a", "b", "google"].findIdx? (fun e => e == "google") = some 2 ∧
    (promoteGoogle ["a", "b", "google"]).getD 0 "" = "google" ∧
    (promoteGoogle ["a", "b", "google"]).getD 1 "" = "b" :=
  ⟨by decide,
   ((getEngines_reorder_swap ["a", "b", "google"]).2.2 2 (by decide) (by decide)).2.1,
   ((getEngines_reorder_swap ["a", "b", "google"]).2.2 2 (by decide)
     (by decide)).2.2.2 1 (by decide) (by decide)⟩

/-- C10: when discovery succeeds but no line of the output has a word
token, `getEngines` returns the empty list with no error, the process-wide
engine list is replaced by that empty list, and every later cache miss
iterates zero engines: `fetch` on the empty list invokes nothing, writes
nothing, and returns the input word as the degraded result. -/
theorem getEngines_no_tokens_degraded (out : String)
    (h : ∀ line ∈ splitLines out.data, findWordAux line = []) :
    getEngines (some out) = some [] ∧
    updateEngines defaultEngines (getEngines (some out)) = [] ∧
    (∀ (word lang : String) (invoke : String → String → String → Option String),
      fetch word lang invoke [] = ⟨word, [], [], [mkTransErrorEvent word lang]⟩) := by
  have hp : parseEngineLines out = [] := by
    unfold parseEngineLines
    rw [List.filterMap_eq_nil]
    intro line hline
    simp [h line hline]
  have h1 : getEngines (some out) = some (promoteGoogle (parseEngineLines out)) := rfl
  rw [h1, hp]
  exact ⟨rfl, rfl, fun word lang invoke => rfl⟩

/-- Witness for C10 at a concrete input: an output of two lines with no
word characters. -/
theorem getEngines_no_tokens_degraded_witness :
    getEngines (some "---\n!!") = some [] ∧
    updateEngines defaultEngines (getEngines (some "---\n!!")) = [] ∧
    fetch "w" "de" (fun _ _ _ => none) [] =
      ⟨"w", [], [], [mkTransErrorEvent "w" "de"]⟩ :=
  ⟨(getEngines_no_tokens_degraded "---\n!!" (by decide)).1,
   (getEngines_no_tokens_degraded "---\n!!" (by decide)).2.1,
   (getEngines_no_tokens_degraded "---\n!!" (by decide)).2.2 "w" "de" (fun _ _ _ => none)⟩

end Translate

namespace Translate

/-! ### Janitor lemmas -/

/-- A value removed by the non-printable pass is necessarily non-empty
(the empty string has no runes), so the empty-value filter does not hide
any non-printable entry. -/
theorem cleanup_and_absorb (isG : Char → Bool) (v : String) :
    (!emptyBad v && nonPrintableBad isG v) = nonPrintableBad isG v := by
  by_cases h : v = ""
  · subst h; rfl
  · have he : emptyBad v = false := by simp [emptyBad, h]
    simp [he]

/-- A sum of mapped naturals is positive iff some element maps to a
positive value. -/
theorem sum_map_pos {α : Type} (f : α → Nat) (l : List α) :
    0 < (l.map f).sum ↔ ∃ a ∈ l, 0 < f a := by
  induction l with
  | nil => simp
  | cons a t ih => simp [List.sum_cons, add_pos_iff, ih]

/-- A janitor pass removed something iff some entry of the scanned cache
satisfies its predicate. -/
theorem passRemove_pos (bad : String → Bool) (cache : Cache) :
    0 < (passRemove bad cache).2.1 ↔
      cache.any (fun lf => lf.2.any (fun wv => bad wv.2)) = true := by
  unfold passRemove
  simp only [List.map_map, Function.comp]
  rw [sum_map_pos]
  simp [List.any_eq_true, List.countP_pos_iff]

/-- The cache left by a full sweep keeps exactly the entries whose value
is non-empty and all of whose runes are graphic. -/
theorem cleanup_fst (isG : Char → Bool) (cache : Cache) :
    (cleanup isG cache).1 = cache.map (fun lf =>
      (lf.1, lf.2.filter (fun wv =>
        !nonPrintableBad isG wv.2 && !emptyBad wv.2))) := by
  simp only [cleanup, removeEmptyTranslations, removeNonPrintableTranslations,
    passRemove, List.map_map]
  apply List.map_congr_left
  intro lf _
  simp [Function.comp, List.filter_filter]

/-- Whether a non-printable entry exists is unaffected by first removing
the empty-valued entries. -/
theorem pass2_any (isG : Char → Bool) (cache : Cache) :
    ((passRemove emptyBad cache).1.any
        (fun lf => lf.2.any (fun wv => nonPrintableBad isG wv.2))) =
      cache.any (fun lf => lf.2.any (fun wv => nonPrintableBad isG wv.2)) := by
  have h1 : (passRemove emptyBad cache).1 =
      cache.map (fun lf => (lf.1, lf.2.filter (fun wv => !emptyBad wv.2))) := rfl
  rw [h1, List.any_map]
  simp only [Function.comp_def, List.any_filter, cleanup_and_absorb]

/-- Length of a conditional singleton. -/
theorem length_if_singleton (c : Prop) [Decidable c] (m : String) :
    (if c then [m] else []).length = if c then 1 else 0 := by
  split <;> rfl

/-- A sweep emits one summary event for the empty pass iff the scanned
cache held an empty value, plus one for the non-printable pass iff it held
a value with a non-graphic rune. -/
theorem cleanup_events_count (isG : Char → Bool) (cache : Cache) :
    (cleanup isG cache).2.length =
      (if cache.any (fun lf => lf.2.any (fun wv => emptyBad wv.2)) then 1 else 0) +
      (if cache.any (fun lf => lf.2.any (fun wv => nonPrintableBad isG wv.2)) then 1
        else 0) := by
  simp only [cleanup, removeEmptyTranslations, removeNonPrintableTranslations]
  rw [List.length_append, length_if_singleton, length_if_singleton]
  rw [if_congr (passRemove_pos emptyBad cache) rfl rfl]
  rw [if_congr ((passRemove_pos (nonPrintableBad isG) _).trans
    (by rw [pass2_any])) rfl rfl]

/-- Mapping every element to zero sums to zero. -/
theorem sum_map_zero {α : Type} (l : List α) :
    (l.map (fun _ => (0 : Nat))).sum = 0 := by
  induction l with
  | nil => rfl
  | cons a t ih => simp [ih]

/-- On a cache with no bad entry, a janitor pass removes nothing, counts
nothing and reports nothing. -/
theorem passRemove_of_clean (bad : String → Bool) (cache : Cache)
    (h : ∀ lf ∈ cache, ∀ wv ∈ lf.2, bad wv.2 = false) :
    passRemove bad cache = (cache, 0, []) := by
  simp only [passRemove]
  have h1 : cache.map (fun lf => (lf.1, lf.2.filter (fun wv => !bad wv.2))) = cache := by
    conv_rhs => rw [← List.map_id cache]
    apply List.map_congr_left
    intro lf hlf
    have hf : lf.2.filter (fun wv => !bad wv.2) = lf.2 :=
      List.filter_eq_self.2 (fun wv hwv => by simp [h lf hlf wv hwv])
    simp [hf]
  have h2 : cache.map (fun lf => (lf.1, lf.2.countP (fun wv => bad wv.2))) =
      cache.map (fun lf => (lf.1, 0)) :=
    List.map_congr_left (fun lf hlf => by
      have hc : lf.2.countP (fun wv => bad wv.2) = 0 :=
        List.countP_eq_zero.2 (fun wv hwv => by simp [h lf hlf wv hwv])
      simp [hc])
  rw [h1, h2]
  have hsum : ((cache.map (fun lf => ((lf.1 : String), (0 : Nat)))).map
      (fun lc => lc.2)).sum = 0 := by
    rw [List.map_map]
    simp only [Function.comp_def]
    exact sum_map_zero cache
  have hfil : (cache.map (fun lf => ((lf.1 : String), (0 : Nat)))).filter
      (fun lc => 0 < lc.2) = [] := by
    rw [List.filter_eq_nil_iff]
    intro lc hlc
    obtain ⟨lf, _, rfl⟩ := List.mem_map.1 hlc
    simp
  rw [hsum, hfil]

/-- Every entry surviving a full sweep is neither empty-valued nor
non-printable. -/
theorem cleanup_entries_clean (isG : Char → Bool) (cache : Cache) :
    ∀ lf ∈ (cleanup isG cache).1, ∀ wv ∈ lf.2,
      emptyBad wv.2 = false ∧ nonPrintableBad isG wv.2 = false := by
  rw [cleanup_fst]
  intro lf hlf wv hwv
  obtain ⟨lf0, _, rfl⟩ := List.mem_map.1 hlf
  have hm := (List.mem_filter.1 hwv).2
  rw [Bool.and_eq_true, Bool.not_eq_true', Bool.not_eq_true'] at hm
  exact ⟨hm.2, hm.1⟩

/-- C8: for every cache state a sweep keeps exactly the entries whose
value is non-empty (first pass) and free of non-graphic runes (second
pass), leaving kept entries unchanged; each pass emits one summary event
iff it removed something; and on the concrete cache of the specification
(`en` holding `a` empty, `b` ok and `c` with a control character) the
sweep removes `a` and `c`, keeps `b`, and emits two summary messages each
reporting one removal for `en`. -/
theorem cleanup_sweep_spec :
    (∀ (isGraphic : Char → Bool) (cache : Cache),
      (cleanup isGraphic cache).1 = cache.map (fun lf =>
        (lf.1, lf.2.filter (fun wv =>
          !nonPrintableBad isGraphic wv.2 && !emptyBad wv.2)))) ∧
    (∀ (isGraphic : Char → Bool) (cache : Cache),
      (cleanup isGraphic cache).2.length =
        (if cache.any (fun lf => lf.2.any (fun wv => emptyBad wv.2)) then 1 else 0) +
        (if cache.any (fun lf => lf.2.any (fun wv => nonPrintableBad isGraphic wv.2))
          then 1 else 0)) ∧
    cleanup isGraphicASCII [("en", [("a", ""), ("b", "ok"), ("c", "\x01bad")])] =
      ([("en", [("b", "ok")])],
       ["[info] removed 1 trashed (empty) translations\nen: 1 removes",
        "[info] removed 1 non-printable translations\nen: 1 removes"]) :=
  ⟨cleanup_fst, cleanup_events_count, by decide⟩

/-- C9: a sweep is idempotent: running it again on the cache it produced,
with no intervening writes, removes nothing and emits no notification. -/
theorem cleanup_idempotent (isG : Char → Bool) (cache : Cache) :
    cleanup isG ((cleanup isG cache).1) = ((cleanup isG cache).1, []) := by
  have hclean := cleanup_entries_clean isG cache
  set C := (cleanup isG cache).1 with hC
  have h1 := passRemove_of_clean emptyBad C
    (fun lf hlf wv hwv => (hclean lf hlf wv hwv).1)
  have h2 := passRemove_of_clean (nonPrintableBad isG) C
    (fun lf hlf wv hwv => (hclean lf hlf wv hwv).2)
  simp [cleanup, removeEmptyTranslations, removeNonPrintableTranslations, h1, h2]

end Translate
